import Mathlib

/-!
Verification of the Upwind Go SDK core (sdk/config.go, sdk/client.go,
sdk/configuration_findings.go, sdk/api_security.go, the threat/SBOM resource
files and the streaming helpers) against its natural-language specification.

The Go code is shallowly embedded: pure computations become Lean functions,
the stateful request/retry/pagination loops become explicit state-passing
functions over finite traces of server responses, machine integers become
Int/Nat (overflow is irrelevant at the magnitudes involved), and fallible Go
calls become Except/Option values.  Clock readings are integer seconds since
Go's zero time (time.Time{}), so the zero time is 0 and every real clock
reading is positive.
-/

/- ===================== Configuration (sdk/config.go) ===================== -/

/-- The Config struct of sdk/config.go, restricted to the fields read by
Validate, GetBaseURL, GetTokenURL, GetAudience and NewClient.  Region is a Go
string type, so it is a String here; empty strings are Go zero values. -/
structure Config where
  clientID : String := ""
  clientSecret : String := ""
  organizationID : String := ""
  region : String := ""
  baseURL : String := ""
  tokenURL : String := ""
  maxRetries : Int := 0
  maxConcurrency : Int := 0
  pageSize : Int := 0
  rateLimitPerSecond : Int := 0
deriving Repr, DecidableEq

/-- Region constant RegionUS of sdk/config.go. -/
def RegionUS : String := "US"

/-- Region constant RegionEU of sdk/config.go. -/
def RegionEU : String := "EU"

/-- Region constant RegionME of sdk/config.go. -/
def RegionME : String := "ME"

/-- Config.Validate of sdk/config.go: the first failing check produces the
error message; none means the configuration is valid. -/
def Config.Validate (c : Config) : Option String :=
  if c.clientID = "" then some "client_id is required"
  else if c.clientSecret = "" then some "client_secret is required"
  else if c.organizationID = "" then some "organization_id is required"
  else if c.region ≠ RegionUS ∧ c.region ≠ RegionEU ∧ c.region ≠ RegionME then
    some "invalid region (must be US, EU, or ME)"
  else if c.maxRetries < 0 then some "max_retries must be >= 0"
  else if c.maxConcurrency < 1 then some "max_concurrency must be >= 1"
  else if c.pageSize < 1 ∨ c.pageSize > 10000 then
    some "page_size must be between 1 and 10000"
  else none

/-- Config.GetBaseURL of sdk/config.go: a nonempty BaseURL override wins,
otherwise the region selects the default (the switch default, covering
RegionUS and anything else, is the US URL). -/
def Config.GetBaseURL (c : Config) : String :=
  if c.baseURL ≠ "" then c.baseURL
  else if c.region = RegionEU then "https://api.eu.upwind.io/v1"
  else if c.region = RegionME then "https://api.me.upwind.io/v1"
  else "https://api.upwind.io/v1"

/-- Config.GetTokenURL of sdk/config.go: a nonempty TokenURL override wins,
otherwise a single region-independent default. -/
def Config.GetTokenURL (c : Config) : String :=
  if c.tokenURL ≠ "" then c.tokenURL
  else "https://auth.upwind.io/oauth/token"

/-- Config.GetAudience of sdk/config.go: selected by region only; the Config
struct has no audience override field. -/
def Config.GetAudience (c : Config) : String :=
  if c.region = RegionEU then "https://api.eu.upwind.io"
  else if c.region = RegionME then "https://api.me.upwind.io"
  else "https://api.upwind.io"

/-- The observable result of NewClient in sdk/client.go: the stored
configuration, the OAuth endpoint and audience baked into the oauth2 config,
and whether a rate limiter was created (RateLimitPerSecond > 0). -/
structure Client where
  config : Config
  oauthTokenURL : String
  oauthAudience : String
  hasRateLimiter : Bool
deriving Repr, DecidableEq

/-- NewClient of sdk/client.go: validates the configuration and on success
builds the client with the resolved token URL and audience and an optional
rate limiter. -/
def NewClient (cfg : Config) : Except String Client :=
  match cfg.Validate with
  | some e => .error ("invalid config: " ++ e)
  | none =>
    .ok { config := cfg
          oauthTokenURL := cfg.GetTokenURL
          oauthAudience := cfg.GetAudience
          hasRateLimiter := decide (0 < cfg.rateLimitPerSecond) }

theorem newClient_ok_iff_validate (cfg : Config) :
    (∃ c, NewClient cfg = .ok c) ↔ cfg.Validate = none := by
  unfold NewClient
  cases h : cfg.Validate <;> simp

/-- C9: NewClient validates its configuration and returns an error (with no
client) exactly when ClientID, ClientSecret or OrganizationID is empty, the
region is not US/EU/ME, MaxRetries < 0, MaxConcurrency < 1, or PageSize is
outside [1, 10000]; for every configuration passing all checks it returns a
client and no error. -/
theorem newClient_validation (cfg : Config) :
    (∃ c, NewClient cfg = .ok c) ↔
      ¬(cfg.clientID = "" ∨ cfg.clientSecret = "" ∨ cfg.organizationID = "" ∨
        (cfg.region ≠ "US" ∧ cfg.region ≠ "EU" ∧ cfg.region ≠ "ME") ∨
        cfg.maxRetries < 0 ∨ cfg.maxConcurrency < 1 ∨
        cfg.pageSize < 1 ∨ cfg.pageSize > 10000) := by
  rw [newClient_ok_iff_validate]
  unfold Config.Validate RegionUS RegionEU RegionME
  split_ifs <;> simp_all

/-- C7 counterexample: with no overrides set, the US, EU and ME configurations
all resolve to the same token endpoint, so GetTokenURL does not return a
different value for each region. -/
theorem getTokenURL_same_across_regions :
    Config.GetTokenURL { region := "US" } = "https://auth.upwind.io/oauth/token" ∧
    Config.GetTokenURL { region := "EU" } = "https://auth.upwind.io/oauth/token" ∧
    Config.GetTokenURL { region := "ME" } = "https://auth.upwind.io/oauth/token" := by
  refine ⟨rfl, rfl, rfl⟩

/-- C7 (amended): with no overrides, the three regions map to distinct default
base URLs and distinct default audiences, while the default token URL is one
region-independent endpoint shared by all three regions; the base URL and the
token URL are individually overridable, and the audience is a function of the
region alone (the Config struct has no audience override). -/
theorem region_url_resolution :
    (Config.GetBaseURL { region := "US" } = "https://api.upwind.io/v1" ∧
     Config.GetBaseURL { region := "EU" } = "https://api.eu.upwind.io/v1" ∧
     Config.GetBaseURL { region := "ME" } = "https://api.me.upwind.io/v1") ∧
    (Config.GetAudience { region := "US" } = "https://api.upwind.io" ∧
     Config.GetAudience { region := "EU" } = "https://api.eu.upwind.io" ∧
     Config.GetAudience { region := "ME" } = "https://api.me.upwind.io") ∧
    (Config.GetTokenURL { region := "US" } = Config.GetTokenURL { region := "EU" } ∧
     Config.GetTokenURL { region := "EU" } = Config.GetTokenURL { region := "ME" }) ∧
    (Config.GetBaseURL { region := "US", baseURL := "https://example.test" } =
       "https://example.test" ∧
     Config.GetTokenURL { region := "US", tokenURL := "https://token.test" } =
       "https://token.test") ∧
    (∀ c : Config, c.GetAudience = Config.GetAudience { region := c.region }) := by
  refine ⟨⟨rfl, rfl, rfl⟩, ⟨rfl, rfl, rfl⟩, ⟨rfl, rfl⟩, ⟨rfl, rfl⟩, fun c => rfl⟩

/- ===================== Token Manager (sdk/client.go getToken) ============= -/

/-- An oauth2.Token as used by Client.getToken: the access token string and
the expiry instant in seconds since Go's zero time (expiry = 0 models a zero
time.Time, which oauth2 treats as never expiring). -/
structure Token where
  accessToken : String
  expiry : Int
deriving Repr, DecidableEq

/-- oauth2 Token.Valid for a non-nil token: nonempty access token and not
expired, where expired means Expiry.Add(-10s).Before(now) and a zero expiry
never expires (the 10 second value is oauth2's defaultExpiryDelta). -/
def Token.valid (t : Token) (now : Int) : Bool :=
  decide (t.accessToken ≠ "" ∧ (t.expiry = 0 ∨ now ≤ t.expiry - 10))

/-- The observable outcome of one Client.getToken call: the returned token or
error, the cache afterwards, and how many token-endpoint network calls were
made. -/
structure GetTokenResult where
  result : Except String Token
  cache : Option Token
  networkCalls : Nat
deriving Repr

/-- Client.getToken of sdk/client.go.  cache is the token field under the
token mutex, now the current clock, and exchange the outcome of the
client-credentials call oauthCfg.TokenSource(ctx).Token().  The cached token
is reused when it is non-nil, Valid, and time.Until(expiry) > 60s; otherwise
one exchange is performed and, on success only, stored in the cache. -/
def getToken (cache : Option Token) (now : Int) (exchange : Except String Token) :
    GetTokenResult :=
  match cache with
  | some t =>
    if t.valid now ∧ t.expiry - now > 60 then
      { result := .ok t, cache := some t, networkCalls := 0 }
    else
      match exchange with
      | .ok tok => { result := .ok tok, cache := some tok, networkCalls := 1 }
      | .error e =>
        { result := .error ("failed to get token: " ++ e), cache := some t, networkCalls := 1 }
  | none =>
    match exchange with
    | .ok tok => { result := .ok tok, cache := some tok, networkCalls := 1 }
    | .error e =>
      { result := .error ("failed to get token: " ++ e), cache := none, networkCalls := 1 }

/-- Modelled from the spec wording of the token-reuse policy (the claim side
of C3): reuse a cached token that exists, is valid, and has strictly more
than 60 seconds remaining before its expiry, making zero network calls;
otherwise perform exactly one client-credentials exchange and, on success,
replace the cache with the fetched token and return it. -/
def specTokenPolicy (cache : Option Token) (now : Int) (exchange : Except String Token) :
    GetTokenResult :=
  match cache with
  | some t =>
    if t.valid now ∧ t.expiry - now > 60 then
      { result := .ok t, cache := cache, networkCalls := 0 }
    else
      match exchange with
      | .ok tok => { result := .ok tok, cache := some tok, networkCalls := 1 }
      | .error e =>
        { result := .error ("failed to get token: " ++ e), cache := cache, networkCalls := 1 }
  | none =>
    match exchange with
    | .ok tok => { result := .ok tok, cache := some tok, networkCalls := 1 }
    | .error e =>
      { result := .error ("failed to get token: " ++ e), cache := cache, networkCalls := 1 }

/-- C3: getToken returns the cached token with zero token-endpoint calls
exactly when a cached token exists, is valid, and has strictly more than 60
seconds remaining; otherwise it performs exactly one client-credentials
exchange and on success the fetched token replaces the cache and is
returned — i.e. the code coincides with the spec policy on every state. -/
theorem getToken_matches_spec_policy (cache : Option Token) (now : Int)
    (exchange : Except String Token) :
    getToken cache now exchange = specTokenPolicy cache now exchange := by
  unfold getToken specTokenPolicy
  cases cache <;> simp

/- ============ Resilient Request Executor (sdk/client.go doRequest) ======== -/

/-- The outcome of one HTTP attempt as doRequest sees it: a transport-level
error from httpClient.Do, or a response with a status code and an optional
parsed Retry-After header in whole seconds (none covers both a missing header
and one time.ParseDuration rejects). -/
inductive Attempt where
  | netErr
  | resp (status : Nat) (retryAfter : Option Nat)
deriving Repr, DecidableEq

/-- Observable events of one doRequest call, in program order: the one
rate-limiter Wait, each getToken call, each httpClient.Do call, each token
invalidation, and each time.Sleep with its duration in milliseconds. -/
inductive Ev where
  | rateAcquire
  | tokenFetch
  | httpDo
  | invalidateToken
  | sleep (ms : Nat)
deriving Repr, DecidableEq

/-- What doRequest returns: a response with its status code and a nil error,
the early return on a getToken failure, or the fall-through error
"all retries exhausted" (reachable only via the transport-error branch on the
final attempt). -/
inductive DoResult where
  | ok (status : Nat)
  | tokenError
  | exhausted
deriving Repr, DecidableEq

/-- True when doRequest returned a non-nil Go error rather than a response. -/
def DoResult.isError : DoResult → Bool
  | .ok _ => false
  | .tokenError => true
  | .exhausted => true


/-- The retry loop of Client.doRequest in sdk/client.go.  server gives the
outcome of attempt i and tokenFail whether getToken fails on attempt i; total
is MaxRetries+1 and fuel the remaining loop iterations, so the current attempt
index is total - fuel and the Go guard attempt < MaxRetries is 0 < fuel - 1.
backoff is the current backoff in milliseconds, starting at 100 and doubling
after every retried failure; the Retry-After value, when present on a 429,
replaces the sleep duration but not the doubling.  Cancellation is not
modelled (sleeps and waits always run to completion). -/
def doRequestLoop (server : Nat → Attempt) (tokenFail : Nat → Bool) (total : Nat) :
    Nat → Nat → List Ev × DoResult
  | 0, _ => ([], .exhausted)
  | fuel + 1, backoff =>
    if tokenFail (total - (fuel + 1)) then ([.tokenFetch], .tokenError)
    else
      match server (total - (fuel + 1)) with
      | .netErr =>
        if 0 < fuel then
          (.tokenFetch :: .httpDo :: .sleep backoff ::
             (doRequestLoop server tokenFail total fuel (backoff * 2)).1,
           (doRequestLoop server tokenFail total fuel (backoff * 2)).2)
        else
          (.tokenFetch :: .httpDo ::
             (doRequestLoop server tokenFail total fuel backoff).1,
           (doRequestLoop server tokenFail total fuel backoff).2)
      | .resp status retryAfter =>
        if status = 401 ∧ 0 < fuel then
          (.tokenFetch :: .httpDo :: .invalidateToken :: .sleep backoff ::
             (doRequestLoop server tokenFail total fuel (backoff * 2)).1,
           (doRequestLoop server tokenFail total fuel (backoff * 2)).2)
        else if status = 429 ∧ 0 < fuel then
          (.tokenFetch :: .httpDo ::
             .sleep (match retryAfter with | some s => s * 1000 | none => backoff) ::
             (doRequestLoop server tokenFail total fuel (backoff * 2)).1,
           (doRequestLoop server tokenFail total fuel (backoff * 2)).2)
        else if 500 ≤ status ∧ 0 < fuel then
          (.tokenFetch :: .httpDo :: .sleep backoff ::
             (doRequestLoop server tokenFail total fuel (backoff * 2)).1,
           (doRequestLoop server tokenFail total fuel (backoff * 2)).2)
        else
          ([.tokenFetch, .httpDo], .ok status)

/-- Client.doRequest of sdk/client.go: one rate-limiter acquisition before the
loop (only when a rate limiter was configured), then the retry loop with
initial backoff 100ms and MaxRetries+1 iterations. -/
def doRequest (rateLimiterEnabled : Bool) (server : Nat → Attempt)
    (tokenFail : Nat → Bool) (maxRetries : Nat) : List Ev × DoResult :=
  ((if rateLimiterEnabled then [.rateAcquire] else []) ++
     (doRequestLoop server tokenFail (maxRetries + 1) (maxRetries + 1) 100).1,
   (doRequestLoop server tokenFail (maxRetries + 1) (maxRetries + 1) 100).2)

/-- Number of httpClient.Do calls (attempts) in an event trace. -/
def countHttp : List Ev → Nat
  | [] => 0
  | .httpDo :: l => countHttp l + 1
  | _ :: l => countHttp l

/-- Number of rate-limiter acquisitions in an event trace. -/
def countRate : List Ev → Nat
  | [] => 0
  | .rateAcquire :: l => countRate l + 1
  | _ :: l => countRate l

/-- The sleep durations of an event trace, in order, in milliseconds. -/
def sleepsOf : List Ev → List Nat
  | [] => []
  | .sleep d :: l => d :: sleepsOf l
  | _ :: l => sleepsOf l

/-- A server that answers HTTP 500 with no Retry-After header on every
attempt. -/
def always500 : Nat → Attempt := fun _ => .resp 500 none

/-- getToken succeeds on every attempt. -/
def tokenNeverFails : Nat → Bool := fun _ => false

/-- The sleep schedule of the retry loop: n retried failures starting from
backoff b, doubling each time. -/
def expSleeps (b : Nat) : Nat → List Nat
  | 0 => []
  | f + 1 => b :: expSleeps (b * 2) f

theorem expSleeps_eq_range_map (n : Nat) :
    ∀ b : Nat, expSleeps b n = (List.range n).map fun i => b * 2 ^ i := by
  induction n with
  | zero => intro b; rfl
  | succ m ih =>
    intro b
    rw [List.range_succ_eq_map]
    simp only [expSleeps, List.map_cons, List.map_map, ih (b * 2)]
    refine congrArg₂ List.cons (by ring) ?_
    refine List.map_congr_left fun i _ => ?_
    simp only [Function.comp, pow_succ]
    ring

theorem doRequestLoop_http_le (server : Nat → Attempt) (tokenFail : Nat → Bool)
    (total : Nat) :
    ∀ fuel b, countHttp (doRequestLoop server tokenFail total fuel b).1 ≤ fuel := by
  intro fuel
  induction fuel with
  | zero => intro b; simp [doRequestLoop, countHttp]
  | succ f ih =>
    intro b
    rw [doRequestLoop]
    by_cases ht : tokenFail (total - (f + 1))
    · simp [ht, countHttp]
    · rw [if_neg ht]
      cases h : server (total - (f + 1)) with
      | netErr =>
        by_cases hf : 0 < f
        · rw [if_pos hf]
          simpa [countHttp] using Nat.succ_le_succ (ih (b * 2))
        · rw [if_neg hf]
          simpa [countHttp] using Nat.succ_le_succ (ih b)
      | resp status retryAfter =>
        dsimp only
        by_cases h401 : status = 401 ∧ 0 < f
        · rw [if_pos h401]
          simpa [countHttp] using Nat.succ_le_succ (ih (b * 2))
        · rw [if_neg h401]
          by_cases h429 : status = 429 ∧ 0 < f
          · rw [if_pos h429]
            simpa [countHttp] using Nat.succ_le_succ (ih (b * 2))
          · rw [if_neg h429]
            by_cases h5 : 500 ≤ status ∧ 0 < f
            · rw [if_pos h5]
              simpa [countHttp] using Nat.succ_le_succ (ih (b * 2))
            · rw [if_neg h5]
              simp [countHttp]

theorem doRequestLoop_always500 (total : Nat) :
    ∀ fuel b,
      countHttp (doRequestLoop always500 tokenNeverFails total (fuel + 1) b).1 = fuel + 1
      ∧ sleepsOf (doRequestLoop always500 tokenNeverFails total (fuel + 1) b).1
          = expSleeps b fuel
      ∧ (doRequestLoop always500 tokenNeverFails total (fuel + 1) b).2 = .ok 500 := by
  intro fuel
  induction fuel with
  | zero => intro b; refine ⟨rfl, rfl, rfl⟩
  | succ f ih =>
    intro b
    have step : doRequestLoop always500 tokenNeverFails total (f + 1 + 1) b
        = (.tokenFetch :: .httpDo :: .sleep b ::
             (doRequestLoop always500 tokenNeverFails total (f + 1) (b * 2)).1,
           (doRequestLoop always500 tokenNeverFails total (f + 1) (b * 2)).2) := by
      rw [doRequestLoop]
      simp [always500, tokenNeverFails]
    obtain ⟨h1, h2, h3⟩ := ih (b * 2)
    refine ⟨?_, ?_, ?_⟩
    · rw [step]; simp [countHttp, h1]
    · rw [step]; simp [sleepsOf, h2, expSleeps]
    · rw [step]; exact h3

/-- Checks that an event trace is a sequence of per-attempt blocks: each
attempt obtains a token and then issues the request, in that order, possibly
followed by a token invalidation and/or a sleep; a lone token fetch is the
final block when getToken fails.  No rate-limiter acquisition occurs inside
any attempt. -/
def attemptBlocks : List Ev → Bool
  | [] => true
  | [.tokenFetch] => true
  | .tokenFetch :: .httpDo :: .invalidateToken :: .sleep _ :: rest => attemptBlocks rest
  | .tokenFetch :: .httpDo :: .sleep _ :: rest => attemptBlocks rest
  | .tokenFetch :: .httpDo :: rest => attemptBlocks rest
  | _ => false

theorem doRequestLoop_shape (server : Nat → Attempt) (tokenFail : Nat → Bool)
    (total : Nat) :
    ∀ fuel b, countRate (doRequestLoop server tokenFail total fuel b).1 = 0
      ∧ attemptBlocks (doRequestLoop server tokenFail total fuel b).1 = true := by
  intro fuel
  induction fuel with
  | zero => intro b; exact ⟨rfl, rfl⟩
  | succ f ih =>
    intro b
    rw [doRequestLoop]
    by_cases ht : tokenFail (total - (f + 1))
    · simp only [ht, if_true]
      exact ⟨rfl, rfl⟩
    · rw [if_neg ht]
      cases h : server (total - (f + 1)) with
      | netErr =>
        by_cases hf : 0 < f
        · rw [if_pos hf]
          obtain ⟨ih1, ih2⟩ := ih (b * 2)
          exact ⟨by simp [countRate, ih1], by simp [attemptBlocks, ih2]⟩
        · rw [if_neg hf]
          have hf0 : f = 0 := by omega
          subst hf0
          exact ⟨rfl, rfl⟩
      | resp status retryAfter =>
        dsimp only
        by_cases h401 : status = 401 ∧ 0 < f
        · rw [if_pos h401]
          obtain ⟨ih1, ih2⟩ := ih (b * 2)
          exact ⟨by simp [countRate, ih1], by simp [attemptBlocks, ih2]⟩
        · rw [if_neg h401]
          by_cases h429 : status = 429 ∧ 0 < f
          · rw [if_pos h429]
            obtain ⟨ih1, ih2⟩ := ih (b * 2)
            exact ⟨by simp [countRate, ih1], by simp [attemptBlocks, ih2]⟩
          · rw [if_neg h429]
            by_cases h5 : 500 ≤ status ∧ 0 < f
            · rw [if_pos h5]
              obtain ⟨ih1, ih2⟩ := ih (b * 2)
              exact ⟨by simp [countRate, ih1], by simp [attemptBlocks, ih2]⟩
            · rw [if_neg h5]
              exact ⟨rfl, rfl⟩

/-- C1 (amended): for every request, doRequest makes at most MaxRetries+1
attempts; against a server that returns HTTP 500 on every attempt it makes
exactly N+1 attempts and sleeps 100ms, 200ms, ..., 100*2^(N-1)ms between
consecutive attempts (deterministic doubling from 100ms), but it then returns
the final 500 response with a nil error — the caller inspects the status —
rather than returning an error value. -/
theorem doRequest_retry_bound_and_backoff (N : Nat) :
    (∀ (rl : Bool) (server : Nat → Attempt) (tokenFail : Nat → Bool),
        countHttp (doRequest rl server tokenFail N).1 ≤ N + 1) ∧
    countHttp (doRequest false always500 tokenNeverFails N).1 = N + 1 ∧
    sleepsOf (doRequest false always500 tokenNeverFails N).1
      = (List.range N).map (fun i => 100 * 2 ^ i) ∧
    (doRequest false always500 tokenNeverFails N).2 = .ok 500 ∧
    DoResult.isError (doRequest false always500 tokenNeverFails N).2 = false := by
  obtain ⟨h1, h2, h3⟩ := doRequestLoop_always500 (N + 1) N 100
  refine ⟨?_, ?_, ?_, ?_, ?_⟩
  · intro rl server tokenFail
    cases rl <;>
      simpa [doRequest, countHttp] using doRequestLoop_http_le server tokenFail (N + 1) (N + 1) 100
  · simpa [doRequest, countHttp] using h1
  · rw [← expSleeps_eq_range_map]
    simpa [doRequest, sleepsOf] using h2
  · simpa [doRequest] using h3
  · simp only [doRequest]
    rw [h3]
    rfl

/-- C1 counterexample: with MaxRetries = 1 and a server always answering 500,
doRequest makes the claimed 2 attempts with the claimed 100ms sleep, but it
does not return a final error: it returns the last 500 response with a nil Go
error. -/
theorem doRequest_500_no_error_at_exhaustion :
    countHttp (doRequest false always500 tokenNeverFails 1).1 = 2 ∧
    sleepsOf (doRequest false always500 tokenNeverFails 1).1 = [100] ∧
    (doRequest false always500 tokenNeverFails 1).2 = .ok 500 ∧
    DoResult.isError (doRequest false always500 tokenNeverFails 1).2 = false := by
  refine ⟨rfl, rfl, rfl, rfl⟩

/-- C6 (amended): doRequest acquires the rate limiter exactly once per logical
request — as the very first step, before the first attempt, and only when a
rate limiter is configured — and then each attempt obtains a token and issues
the request against the transport, in that order, with no further rate-limiter
acquisitions on retries. -/
theorem doRequest_rate_once (N : Nat) (server : Nat → Attempt) (tokenFail : Nat → Bool) :
    countRate (doRequest true server tokenFail N).1 = 1 ∧
    (doRequest true server tokenFail N).1.head? = some .rateAcquire ∧
    countRate (doRequest false server tokenFail N).1 = 0 ∧
    attemptBlocks ((doRequest true server tokenFail N).1.drop 1) = true ∧
    attemptBlocks (doRequest false server tokenFail N).1 = true := by
  obtain ⟨h1, h2⟩ := doRequestLoop_shape server tokenFail (N + 1) (N + 1) 100
  refine ⟨?_, ?_, ?_, ?_, ?_⟩
  · simpa [doRequest, countRate] using h1
  · simp [doRequest]
  · simpa [doRequest, countRate] using h1
  · simpa [doRequest] using h2
  · simpa [doRequest] using h2

/-- C6 counterexample: a request that takes 2 attempts (MaxRetries = 1 against
an always-500 server, rate limiter enabled) performs exactly 1 rate-limiter
acquisition, not 2 — the slot is acquired once before the loop, not per
attempt. -/
theorem doRequest_one_rate_two_attempts :
    countRate (doRequest true always500 tokenNeverFails 1).1 = 1 ∧
    countHttp (doRequest true always500 tokenNeverFails 1).1 = 2 ∧
    countRate (doRequest true always500 tokenNeverFails 1).1 ≠
      countHttp (doRequest true always500 tokenNeverFails 1).1 := by
  refine ⟨rfl, rfl, by decide⟩

/- ============ Streaming helpers: CollectInChunks ========================== -/

/-- The item-consuming loop of CollectInChunks in the streaming helpers file:
buf is the chunk buffer accumulated so far (in order) and the second list the
remaining items of the stream; the handler is processChunk, whose some result
is the Go error that aborts the drain.  The error channel is empty in the runs
modelled here and the runtime.GC hint every 10 chunks has no observable
effect.  A batch is handed to the handler when its length reaches chunkSize,
and a final nonempty partial buffer is handed over at stream end. -/
def collectInChunksGo {α ε : Type} (handler : List α → Option ε) (chunkSize : Nat) :
    List α → List α → List (List α) × Option ε
  | buf, [] =>
    if buf.isEmpty then ([], none)
    else
      match handler buf with
      | some e => ([buf], some e)
      | none => ([buf], none)
  | buf, x :: rest =>
    if chunkSize ≤ (buf ++ [x]).length then
      match handler (buf ++ [x]) with
      | some e => ([buf ++ [x]], some e)
      | none =>
        ((buf ++ [x]) :: (collectInChunksGo handler chunkSize [] rest).1,
         (collectInChunksGo handler chunkSize [] rest).2)
    else
      collectInChunksGo handler chunkSize (buf ++ [x]) rest

/-- CollectInChunks of the streaming helpers, starting from an empty buffer;
returns the batches passed to the handler, in order, and the returned error. -/
def CollectInChunks {α ε : Type} (handler : List α → Option ε) (chunkSize : Nat)
    (items : List α) : List (List α) × Option ε :=
  collectInChunksGo handler chunkSize [] items

theorem collectInChunksGo_spec {α ε : Type} (handler : List α → Option ε) (n : Nat) :
    ∀ (rest buf : List α), buf.length < n →
      (((collectInChunksGo handler n buf rest).2 = none →
          (collectInChunksGo handler n buf rest).1.flatten = buf ++ rest ∧
          (∀ b ∈ (collectInChunksGo handler n buf rest).1,
             handler b = none ∧ 1 ≤ b.length ∧ b.length ≤ n) ∧
          (∀ b ∈ (collectInChunksGo handler n buf rest).1.dropLast, b.length = n) ∧
          ((buf.length + rest.length) % n = 0 →
             ∀ b ∈ (collectInChunksGo handler n buf rest).1, b.length = n)) ∧
       (∀ e, (collectInChunksGo handler n buf rest).2 = some e →
          ∃ pre c, (collectInChunksGo handler n buf rest).1 = pre ++ [c] ∧
            (∀ b ∈ pre, handler b = none ∧ b.length = n) ∧
            handler c = some e ∧ 1 ≤ c.length ∧ c.length ≤ n ∧
            ∃ tail, (collectInChunksGo handler n buf rest).1.flatten ++ tail = buf ++ rest)) := by
  intro rest
  induction rest with
  | nil =>
    intro buf hbuf
    by_cases hb : buf.isEmpty
    · have hbe : buf = [] := by simpa [List.isEmpty_iff] using hb
      subst hbe
      have hg : collectInChunksGo handler n ([] : List α) [] = ([], none) := by
        simp [collectInChunksGo]
      rw [hg]
      refine ⟨fun _ => ⟨rfl, by simp, by simp, fun _ => by simp⟩, fun e he => by simp at he⟩
    · have hbne : ¬buf = [] := by simpa [List.isEmpty_iff] using hb
      have hb1 : 1 ≤ buf.length := by
        cases buf with
        | nil => exact absurd rfl hbne
        | cons a l => simp
      cases hh : handler buf with
      | some e =>
        have hg : collectInChunksGo handler n buf [] = ([buf], some e) := by
          simp [collectInChunksGo, hb, hh]
        rw [hg]
        refine ⟨fun h0 => by simp at h0, fun e2 he2 => ?_⟩
        have he : e2 = e := by simpa using he2.symm
        subst he
        exact ⟨[], buf, rfl, by simp, hh, hb1, Nat.le_of_lt hbuf, [], by simp⟩
      | none =>
        have hg : collectInChunksGo handler n buf [] = ([buf], none) := by
          simp [collectInChunksGo, hb, hh]
        rw [hg]
        refine ⟨fun _ => ?_, fun e2 he2 => by simp at he2⟩
        refine ⟨by simp, ?_, by simp, ?_⟩
        · intro b hbmem
          have hbb : b = buf := by simpa using hbmem
          rw [hbb]
          exact ⟨hh, hb1, Nat.le_of_lt hbuf⟩
        · intro hm b hbmem
          have hbb : b = buf := by simpa using hbmem
          have hmod : buf.length % n = buf.length := Nat.mod_eq_of_lt hbuf
          simp only [List.length_nil, Nat.add_zero] at hm
          rw [hbb]
          omega
  | cons x rest ih =>
    intro buf hbuf
    have hxlen : (buf ++ [x]).length = buf.length + 1 := by
      simp
    by_cases hsz : n ≤ (buf ++ [x]).length
    · have hlen : (buf ++ [x]).length = n := by omega
      have hx1 : 1 ≤ (buf ++ [x]).length := by omega
      cases hh : handler (buf ++ [x]) with
      | some e =>
        have hg : collectInChunksGo handler n buf (x :: rest) = ([buf ++ [x]], some e) := by
          rw [collectInChunksGo, if_pos hsz, hh]
        rw [hg]
        refine ⟨fun h0 => by simp at h0, fun e2 he2 => ?_⟩
        have he : e2 = e := by simpa using he2.symm
        subst he
        refine ⟨[], buf ++ [x], rfl, by simp, hh, hx1, Nat.le_of_eq hlen, rest, ?_⟩
        simp
      | none =>
        have hg : collectInChunksGo handler n buf (x :: rest)
            = ((buf ++ [x]) :: (collectInChunksGo handler n [] rest).1,
               (collectInChunksGo handler n [] rest).2) := by
          rw [collectInChunksGo, if_pos hsz, hh]
        have hnz : ([] : List α).length < n := by
          simp only [List.length_nil]
          omega
        obtain ⟨IH1, IH2⟩ := ih [] hnz
        rw [hg]
        constructor
        · intro h0
          obtain ⟨j1, j2, j3, j4⟩ := IH1 h0
          refine ⟨?_, ?_, ?_, ?_⟩
          · rw [List.flatten_cons, j1]
            simp
          · intro b hbmem
            rcases List.mem_cons.mp hbmem with hbe | hbm
            · rw [hbe]
              exact ⟨hh, hx1, Nat.le_of_eq hlen⟩
            · exact j2 b hbm
          · intro b hbmem
            cases hrec : (collectInChunksGo handler n ([] : List α) rest).1 with
            | nil =>
              rw [hrec] at hbmem
              simp at hbmem
            | cons c cs =>
              rw [hrec] at hbmem j3
              rcases List.mem_cons.mp (by simpa [List.dropLast] using hbmem) with hbe | hbm
              · rw [hbe]
                exact hlen
              · exact j3 b (by simpa [List.dropLast] using hbm)
          · intro hm b hbmem
            have hm2 : (([] : List α).length + rest.length) % n = 0 := by
              have h3 : buf.length + (x :: rest).length = n + rest.length := by
                simp only [List.length_cons]
                omega
              rw [h3, Nat.add_mod_left] at hm
              simpa using hm
            rcases List.mem_cons.mp hbmem with hbe | hbm
            · rw [hbe]
              exact hlen
            · exact j4 hm2 b hbm
        · intro e he
          obtain ⟨pre, c, k1, k2, k3, k4, k5, tail, k6⟩ := IH2 e he
          refine ⟨(buf ++ [x]) :: pre, c, by rw [k1]; simp, ?_, k3, k4, k5, tail, ?_⟩
          · intro b hbmem
            rcases List.mem_cons.mp hbmem with hbe | hbm
            · rw [hbe]
              exact ⟨hh, hlen⟩
            · exact k2 b hbm
          · rw [List.flatten_cons, List.append_assoc, k6]
            simp
    · have hlt : (buf ++ [x]).length < n := by omega
      have hg : collectInChunksGo handler n buf (x :: rest)
          = collectInChunksGo handler n (buf ++ [x]) rest := by
        rw [collectInChunksGo, if_neg hsz]
      obtain ⟨IH1, IH2⟩ := ih (buf ++ [x]) hlt
      rw [hg]
      constructor
      · intro h0
        obtain ⟨j1, j2, j3, j4⟩ := IH1 h0
        refine ⟨by rw [j1]; simp, j2, j3, ?_⟩
        intro hm
        apply j4
        have h3 : (buf ++ [x]).length + rest.length = buf.length + (x :: rest).length := by
          simp only [List.length_append, List.length_cons, List.length_nil]
          omega
        rw [h3]
        exact hm
      · intro e he
        obtain ⟨pre, c, k1, k2, k3, k4, k5, tail, k6⟩ := IH2 e he
        refine ⟨pre, c, k1, k2, k3, k4, k5, tail, ?_⟩
        rw [k6]
        simp

/-- C8: for every input item sequence and every chunkSize >= 1,
CollectInChunks invokes the handler on consecutive batches of exactly
chunkSize items, with a final partial batch of 1..chunkSize items at stream
end exactly when the total count is not a multiple of chunkSize; the
concatenation of the batches equals the input sequence in order, and if the
handler returns an error the drain aborts immediately (only a prefix of the
input has been consumed) and that error is returned. -/
theorem collectInChunks_spec {α ε : Type} (handler : List α → Option ε) (n : Nat)
    (items : List α) (hn : 1 ≤ n) :
    ((CollectInChunks handler n items).2 = none →
       (CollectInChunks handler n items).1.flatten = items ∧
       (∀ b ∈ (CollectInChunks handler n items).1,
          handler b = none ∧ 1 ≤ b.length ∧ b.length ≤ n) ∧
       (∀ b ∈ (CollectInChunks handler n items).1.dropLast, b.length = n) ∧
       (items.length % n = 0 → ∀ b ∈ (CollectInChunks handler n items).1, b.length = n)) ∧
    (∀ e, (CollectInChunks handler n items).2 = some e →
       ∃ pre c, (CollectInChunks handler n items).1 = pre ++ [c] ∧
         (∀ b ∈ pre, handler b = none ∧ b.length = n) ∧
         handler c = some e ∧ 1 ≤ c.length ∧ c.length ≤ n ∧
         ∃ tail, (CollectInChunks handler n items).1.flatten ++ tail = items) := by
  have h := collectInChunksGo_spec handler n items []
    (by simp only [List.length_nil]; omega)
  simpa [CollectInChunks] using h

/-- C8 witness: the chunking specification instantiated at chunk size 2, input
[7, 8, 9] and a handler that always succeeds. -/
theorem collectInChunks_spec_witness :
    1 ≤ 2 ∧
    (((CollectInChunks (fun _ => (none : Option Unit)) 2 [7, 8, 9]).2 = none →
       (CollectInChunks (fun _ => (none : Option Unit)) 2 [7, 8, 9]).1.flatten = [7, 8, 9] ∧
       (∀ b ∈ (CollectInChunks (fun _ => (none : Option Unit)) 2 [7, 8, 9]).1,
          (fun _ => (none : Option Unit)) b = none ∧ 1 ≤ b.length ∧ b.length ≤ 2) ∧
       (∀ b ∈ (CollectInChunks (fun _ => (none : Option Unit)) 2 [7, 8, 9]).1.dropLast,
          b.length = 2) ∧
       (([7, 8, 9] : List Nat).length % 2 = 0 →
          ∀ b ∈ (CollectInChunks (fun _ => (none : Option Unit)) 2 [7, 8, 9]).1,
            b.length = 2)) ∧
     (∀ e, (CollectInChunks (fun _ => (none : Option Unit)) 2 [7, 8, 9]).2 = some e →
       ∃ pre c, (CollectInChunks (fun _ => (none : Option Unit)) 2 [7, 8, 9]).1 = pre ++ [c] ∧
         (∀ b ∈ pre, (fun _ => (none : Option Unit)) b = none ∧ b.length = 2) ∧
         (fun _ => (none : Option Unit)) c = some e ∧ 1 ≤ c.length ∧ c.length ≤ 2 ∧
         ∃ tail, (CollectInChunks (fun _ => (none : Option Unit)) 2 [7, 8, 9]).1.flatten ++ tail
           = [7, 8, 9])) :=
  ⟨by decide, collectInChunks_spec (fun _ => (none : Option Unit)) 2 [7, 8, 9] (by decide)⟩

/- ============ Offset pagination (ListThreatEvents) ======================== -/

/-- The page-fetch loop of ListThreatEvents in the threat resource file.
perPage is the effective per-page value, page the current page number, and the
trace lists the outcomes of listThreatEventsPage for successive requests (a
decoded item list, or the error for a non-200 status / decode / transport
failure).  hasMore is len(events) == perPage and the loop breaks when
!hasMore || len(events) == 0, otherwise increments the page number; on an
error all accumulated events are discarded and the error returned.  The
result is none when the trace runs out while the loop still wants a page;
otherwise the final result together with the page numbers requested. -/
def listThreatEventsLoop {α : Type} (perPage : Int) :
    List (Except String (List α)) → Int → Option (Except String (List α) × List Int)
  | [], _ => none
  | .error e :: _, page => some (.error e, [page])
  | .ok events :: rest, page =>
    if (events.length : Int) = perPage ∧ events.length ≠ 0 then
      match listThreatEventsLoop perPage rest (page + 1) with
      | none => none
      | some (.error e, pages) => some (.error e, page :: pages)
      | some (.ok more, pages) => some (.ok (events ++ more), page :: pages)
    else
      some (.ok events, [page])

/-- ListThreatEvents of the threat resource file: applies the Go defaulting
(query.Page 0 becomes 1, query.PerPage 0 becomes the configured PageSize) and
runs the page loop. -/
def ListThreatEvents {α : Type} (queryPage queryPerPage cfgPageSize : Int)
    (trace : List (Except String (List α))) :
    Option (Except String (List α) × List Int) :=
  listThreatEventsLoop (if queryPerPage = 0 then cfgPageSize else queryPerPage)
    trace (if queryPage = 0 then 1 else queryPage)

/-- C5 counterexample: with requested page size 1, a first page of 2 items is
not fewer than the page size and not zero, yet the code stops after that page
(1 request, no request for the available second page), because its stop
condition is len(events) != perPage, not len(events) < perPage. -/
theorem listThreatEvents_stops_on_overfull_page :
    listThreatEventsLoop (α := Nat) 1 [.ok [10, 20], .ok [30]] 1
      = some (.ok [10, 20], [1]) ∧
    ¬(((10 : Nat) :: [20]).length : Int) < 1 ∧ ((10 : Nat) :: [20]).length ≠ 0 := by
  refine ⟨rfl, by decide, by decide⟩

/-- C5 (amended): in offset-mode pagination, for every sequence of page
responses, fetching stops exactly when a page returns a number of items
different from the requested page size (in particular when it returns fewer,
or zero); otherwise the page number is incremented and fetching continues.
With page size >= 1, if the first k pages are exactly full and page k+1 is
not, the stream yields the concatenation of the first k+1 pages and exactly
pages startPage, startPage+1, ..., startPage+k are requested. -/
theorem listThreatEvents_offset_stop {α : Type} (perPage : Int) (hpp : 1 ≤ perPage) :
    ∀ (k : Nat) (pages : List (List α)) (startPage : Int) (hk : k < pages.length),
      (∀ p ∈ pages.take k, (p.length : Int) = perPage) →
      ((pages.get ⟨k, hk⟩).length : Int) ≠ perPage →
      listThreatEventsLoop perPage (pages.map .ok) startPage
        = some (.ok (pages.take (k + 1)).flatten,
                (List.range (k + 1)).map (fun (i : Nat) => startPage + (i : Int))) := by
  intro k
  induction k with
  | zero =>
    intro pages startPage hk hfull hstop
    cases pages with
    | nil => simp at hk
    | cons p ps =>
      have hstop2 : ¬((p.length : Int) = perPage) := by simpa using hstop
      rw [List.map_cons, listThreatEventsLoop, if_neg (fun hcon => hstop2 hcon.1)]
      rw [show List.range 1 = [0] from rfl]
      simp only [List.take_succ_cons, List.take_zero, List.flatten_cons,
        List.flatten_nil, List.append_nil, List.map_cons, List.map_nil,
        Nat.cast_zero, add_zero]
  | succ k ih =>
    intro pages startPage hk hfull hstop
    cases pages with
    | nil => simp at hk
    | cons p ps =>
      have hpfull : (p.length : Int) = perPage := by
        refine hfull p ?_
        rw [List.take_succ_cons]
        exact List.mem_cons_self p _
      have hpne : p.length ≠ 0 := by
        intro h0
        rw [h0] at hpfull
        omega
      have hk2 : k < ps.length := by simpa using hk
      have hrec := ih ps (startPage + 1) hk2
        (fun q hq => hfull q (by rw [List.take_succ_cons]; exact List.mem_cons_of_mem p hq))
        (by simpa using hstop)
      rw [List.map_cons, listThreatEventsLoop, if_pos ⟨hpfull, hpne⟩, hrec]
      have hrg : (List.range (k + 1 + 1)).map (fun (i : Nat) => startPage + (i : Int))
          = startPage :: (List.range (k + 1)).map (fun (i : Nat) => startPage + 1 + (i : Int)) := by
        rw [List.range_succ_eq_map]
        simp only [List.map_cons, List.map_map]
        refine congrArg₂ List.cons (by simp) ?_
        refine List.map_congr_left fun i _ => ?_
        simp only [Function.comp]
        push_cast
        ring
      rw [hrg, List.take_succ_cons, List.flatten_cons]

/-- C5 witness: page size 2, page 1 returns 2 items, page 2 returns 1 item:
the stream yields the 3 items in order and requests exactly pages 1 and 2. -/
theorem listThreatEvents_offset_stop_witness :
    (1 : Int) ≤ 2 ∧ (1 : Nat) < ([[10, 20], [30]] : List (List Nat)).length ∧
    (∀ p ∈ ([[10, 20], [30]] : List (List Nat)).take 1, (p.length : Int) = 2) ∧
    ((([[10, 20], [30]] : List (List Nat)).get ⟨1, by decide⟩).length : Int) ≠ 2 ∧
    listThreatEventsLoop (α := Nat) 2 (([[10, 20], [30]] : List (List Nat)).map .ok) 1
      = some (.ok (([[10, 20], [30]] : List (List Nat)).take 2).flatten,
              (List.range 2).map (fun (i : Nat) => (1 : Int) + (i : Int))) := by
  exact ⟨by decide, by decide, by decide, by decide,
    listThreatEvents_offset_stop 2 (by decide) 1 [[10, 20], [30]] 1 (by decide)
      (by decide) (by decide)⟩

/- ============ Streaming Pipeline producer (cursor list goroutines) ======== -/

/-- The outcome of one page fetch as the streaming producer sees it
(listConfigurationFindingsPage / listApiEndpointsPage): an error of any kind
(transport, non-OK status, decode failure), or the page's decoded items with
the extracted next-page token ("" meaning no further page). -/
inductive PageOut (α : Type) where
  | perr (e : String)
  | pok (items : List α) (next : String)

/-- The single terminal error a stream can post: a page-fetch error, or the
context error posted when cancellation wins the send select. -/
inductive StreamErr where
  | api (e : String)
  | cancelled
deriving Repr, DecidableEq

/-- Delivery of one page's items into the channel: the select between
findingsCh <- item and ctx.Done().  sent counts send operations globally and
cancel says whether at send number i the context is done and the scheduler
takes the Done branch (Go picks a ready select case at random, so cancel
ranges over every schedule; a live context always sends).  Returns the items
delivered, the new send count, and whether delivery was cut by cancellation. -/
def deliver {α : Type} (cancel : Nat → Bool) : Nat → List α → List α × Nat × Bool
  | sent, [] => ([], sent, false)
  | sent, x :: xs =>
    if cancel sent then ([], sent, true)
    else
      (x :: (deliver cancel (sent + 1) xs).1,
       (deliver cancel (sent + 1) xs).2.1,
       (deliver cancel (sent + 1) xs).2.2)

/-- The producer goroutine of ListConfigurationFindings and ListApiEndpoints:
fetch a page; on error post it and stop; otherwise deliver the items in order
(posting ctx.Err() and stopping if cancellation wins a send), close cleanly
when the next token is empty, else fetch the next page.  trace lists the page
results of successive requests; the result is none when the trace is
exhausted while the producer still wants a page, otherwise the delivered
items, the posted error (none = clean close) and the number of page requests
issued. -/
def streamRun {α : Type} (cancel : Nat → Bool) :
    List (PageOut α) → Nat → Option (List α × Option StreamErr × Nat)
  | [], _ => none
  | .perr e :: _, _ => some ([], some (.api e), 1)
  | .pok items next :: rest, sent =>
    if (deliver cancel sent items).2.2 then
      some ((deliver cancel sent items).1, some .cancelled, 1)
    else if next = "" then
      some ((deliver cancel sent items).1, none, 1)
    else
      match streamRun cancel rest (deliver cancel sent items).2.1 with
      | none => none
      | some (is, e, r) => some ((deliver cancel sent items).1 ++ is, e, r + 1)

/-- The items of the successfully fetched pages of a trace, in order. -/
def okItems {α : Type} : List (PageOut α) → List α
  | [] => []
  | .perr _ :: rest => okItems rest
  | .pok its _ :: rest => its ++ okItems rest

theorem deliver_sub {α : Type} (cancel : Nat → Bool) :
    ∀ (its : List α) (sent : Nat), ∃ s, (deliver cancel sent its).1 ++ s = its := by
  intro its
  induction its with
  | nil => intro sent; exact ⟨[], rfl⟩
  | cons x xs ih =>
    intro sent
    by_cases hc : cancel sent
    · exact ⟨x :: xs, by simp [deliver, hc]⟩
    · obtain ⟨s, hs⟩ := ih (sent + 1)
      exact ⟨s, by simp [deliver, hc, hs]⟩

theorem deliver_all {α : Type} (cancel : Nat → Bool) :
    ∀ (its : List α) (sent : Nat), (deliver cancel sent its).2.2 = false →
      (deliver cancel sent its).1 = its := by
  intro its
  induction its with
  | nil => intro sent _; rfl
  | cons x xs ih =>
    intro sent hf
    by_cases hc : cancel sent
    · simp [deliver, hc] at hf
    · simp only [deliver, hc, if_false, Bool.false_eq_true] at hf ⊢
      rw [ih (sent + 1) hf]

theorem streamRun_spec {α : Type} (cancel : Nat → Bool) :
    ∀ (trace : List (PageOut α)) (sent : Nat) (items : List α)
      (err : Option StreamErr) (reqs : Nat),
      streamRun cancel trace sent = some (items, err, reqs) →
      (1 ≤ reqs ∧ reqs ≤ trace.length) ∧
      (∃ suffix, items ++ suffix = okItems (trace.take reqs)) ∧
      (err = none → items = okItems (trace.take reqs)) ∧
      (∀ junk, streamRun cancel (trace.take reqs ++ junk) sent = some (items, err, reqs)) := by
  intro trace
  induction trace with
  | nil =>
    intro sent items err reqs h
    simp [streamRun] at h
  | cons p rest ih =>
    intro sent items err reqs h
    cases p with
    | perr e =>
      rw [streamRun] at h
      simp only [Option.some.injEq, Prod.mk.injEq] at h
      obtain ⟨hi, he, hr⟩ := h
      subst hi; subst he; subst hr
      refine ⟨⟨Nat.le_refl 1, by simp⟩, ⟨[], by simp [okItems]⟩,
        fun hn => by simp at hn, fun junk => ?_⟩
      rw [List.take_succ_cons, List.take_zero]
      rfl
    | pok its next =>
      rw [streamRun] at h
      cases hflag : (deliver cancel sent its).2.2 with
      | true =>
        rw [hflag] at h
        simp only [if_true, Option.some.injEq, Prod.mk.injEq] at h
        obtain ⟨hi, he, hr⟩ := h
        subst hi; subst he; subst hr
        obtain ⟨s, hs⟩ := deliver_sub cancel its sent
        refine ⟨⟨Nat.le_refl 1, by simp⟩, ⟨s, ?_⟩,
          fun hn => by simp at hn, fun junk => ?_⟩
        · rw [List.take_succ_cons, List.take_zero]
          simpa [okItems] using hs
        · rw [List.take_succ_cons, List.take_zero, List.cons_append, List.nil_append]
          rw [streamRun, hflag]
          rfl
      | false =>
        rw [hflag] at h
        simp only [Bool.false_eq_true, if_false] at h
        have hall : (deliver cancel sent its).1 = its := deliver_all cancel its sent hflag
        by_cases hnext : next = ""
        · rw [if_pos hnext] at h
          simp only [Option.some.injEq, Prod.mk.injEq] at h
          obtain ⟨hi, he, hr⟩ := h
          subst he; subst hr
          refine ⟨⟨Nat.le_refl 1, by simp⟩, ⟨[], ?_⟩, fun _ => ?_, fun junk => ?_⟩
          · rw [List.take_succ_cons, List.take_zero]
            simp [okItems, ← hi, hall]
          · rw [List.take_succ_cons, List.take_zero]
            simp [okItems, ← hi, hall]
          · rw [List.take_succ_cons, List.take_zero, List.cons_append, List.nil_append]
            rw [streamRun, hflag]
            simp only [Bool.false_eq_true, if_false, if_pos hnext]
            rw [hi]
        · rw [if_neg hnext] at h
          cases hrec : streamRun cancel rest (deliver cancel sent its).2.1 with
          | none => rw [hrec] at h; simp at h
          | some trip =>
            obtain ⟨is, e2, r⟩ := trip
            rw [hrec] at h
            simp only [Option.some.injEq, Prod.mk.injEq] at h
            obtain ⟨hi, he, hr⟩ := h
            subst he; subst hr
            obtain ⟨⟨j1, j2⟩, ⟨s, hs⟩, j3, j4⟩ :=
              ih (deliver cancel sent its).2.1 is e2 r hrec
            refine ⟨⟨by omega, by simp; omega⟩, ⟨s, ?_⟩, fun hn => ?_, fun junk => ?_⟩
            · rw [List.take_succ_cons]
              simp only [okItems]
              rw [← hi, hall, List.append_assoc, hs]
            · rw [List.take_succ_cons]
              simp only [okItems]
              rw [← hi, hall, j3 hn]
            · rw [List.take_succ_cons, List.cons_append]
              rw [streamRun, hflag]
              simp only [Bool.false_eq_true, if_false, if_neg hnext]
              rw [j4 junk]
              dsimp only
              rw [hi]

/-- C2: for every list-streaming call (the producer goroutines of
ListConfigurationFindings and ListApiEndpoints), under every cancellation
schedule, the consumer observes either the complete in-order item sequence of
the consumed pages followed by a clean close with no error, or a prefix of
that sequence followed by exactly one terminal error (the error signal is a
single Option slot by construction); and once the run stops, pages beyond the
consumed ones are never requested — the outcome is unchanged by arbitrary
responses after the stopping point. -/
theorem stream_error_discipline {α : Type} (cancel : Nat → Bool)
    (trace : List (PageOut α)) (items : List α) (err : Option StreamErr) (reqs : Nat)
    (h : streamRun cancel trace 0 = some (items, err, reqs)) :
    (1 ≤ reqs ∧ reqs ≤ trace.length) ∧
    (∃ suffix, items ++ suffix = okItems (trace.take reqs)) ∧
    (err = none → items = okItems (trace.take reqs)) ∧
    (∀ junk, streamRun cancel (trace.take reqs ++ junk) 0 = some (items, err, reqs)) :=
  streamRun_spec cancel trace 0 items err reqs h

/-- C2 witness: a 2-page run with no cancellation delivers both pages' items
in order, closes cleanly, and issues exactly 2 page requests. -/
theorem stream_error_discipline_witness :
    streamRun (fun _ => false) [PageOut.pok [1, 2] "t", PageOut.pok [3] ""] 0
      = some ([1, 2, 3], none, 2) ∧
    ((1 ≤ 2 ∧ 2 ≤ ([PageOut.pok [1, 2] "t", PageOut.pok [3] ""] : List (PageOut Nat)).length) ∧
     (∃ suffix, [1, 2, 3] ++ suffix
        = okItems (([PageOut.pok [1, 2] "t", PageOut.pok [3] ""] : List (PageOut Nat)).take 2)) ∧
     ((none : Option StreamErr) = none → [1, 2, 3]
        = okItems (([PageOut.pok [1, 2] "t", PageOut.pok [3] ""] : List (PageOut Nat)).take 2)) ∧
     (∀ junk, streamRun (fun _ => false)
        (([PageOut.pok [1, 2] "t", PageOut.pok [3] ""] : List (PageOut Nat)).take 2 ++ junk) 0
        = some ([1, 2, 3], none, 2))) :=
  ⟨rfl, stream_error_discipline (fun _ => false)
    [PageOut.pok [1, 2] "t", PageOut.pok [3] ""] [1, 2, 3] none 2 rfl⟩

/- ============ Cursor pagination: Link header and page tokens ============== -/

/-- ThreatDetectionsQuery of sdk/types.go; field defaults are the Go zero
values (typ stands for the Go field Type, a Lean keyword). -/
structure ThreatDetectionsQuery where
  severity : String := ""
  typ : String := ""
  category : String := ""
  minFirstSeenTime : String := ""
  maxFirstSeenTime : String := ""
  minLastSeenTime : String := ""
  maxLastSeenTime : String := ""
deriving Repr, DecidableEq

/-- buildThreatDetectionsQueryParams: the url.Values entries added, in
program order (Encode then sorts keys, which both sides of the claims here
share). -/
def buildThreatDetectionsQueryParams (q : ThreatDetectionsQuery) : List (String × String) :=
  (if q.severity ≠ "" then [("severity", q.severity)] else []) ++
  (if q.typ ≠ "" then [("type", q.typ)] else []) ++
  (if q.category ≠ "" then [("category", q.category)] else []) ++
  (if q.minFirstSeenTime ≠ "" then [("min-first-seen-time", q.minFirstSeenTime)] else []) ++
  (if q.maxFirstSeenTime ≠ "" then [("max-first-seen-time", q.maxFirstSeenTime)] else []) ++
  (if q.minLastSeenTime ≠ "" then [("min-last-seen-time", q.minLastSeenTime)] else []) ++
  (if q.maxLastSeenTime ≠ "" then [("max-last-seen-time", q.maxLastSeenTime)] else [])

/-- The query handling of ListThreatDetections: a nil query is replaced by
the zero-value query before the parameters are built. -/
def ListThreatDetectionsParams (q : Option ThreatDetectionsQuery) : List (String × String) :=
  buildThreatDetectionsQueryParams (match q with | none => {} | some q => q)

/-- ConfigurationFindingsQuery of sdk/types.go with Go zero-value defaults. -/
structure ConfigurationFindingsQuery where
  minLastSeenTime : String := ""
  maxLastSeenTime : String := ""
  status : String := ""
  severity : String := ""
  resourceName : String := ""
  checkTitle : String := ""
  checkID : String := ""
  frameworkID : String := ""
  frameworkTitle : String := ""
  cloudAccountTags : List String := []
  includeCloudAccountTags : Bool := false
deriving Repr, DecidableEq

/-- Joins strings with commas, as strings.Join(tags, ","). -/
def joinComma : List String → String
  | [] => ""
  | [s] => s
  | s :: rest => s ++ "," ++ joinComma rest

/-- buildConfigurationFindingsQueryParams: the page token (when nonempty)
then each set filter, in program order. -/
def buildConfigurationFindingsQueryParams (q : ConfigurationFindingsQuery)
    (pageToken : String) : List (String × String) :=
  (if pageToken ≠ "" then [("page-token", pageToken)] else []) ++
  (if q.minLastSeenTime ≠ "" then [("min-last-seen-time", q.minLastSeenTime)] else []) ++
  (if q.maxLastSeenTime ≠ "" then [("max-last-seen-time", q.maxLastSeenTime)] else []) ++
  (if q.status ≠ "" then [("status", q.status)] else []) ++
  (if q.severity ≠ "" then [("severity", q.severity)] else []) ++
  (if q.resourceName ≠ "" then [("resource-name", q.resourceName)] else []) ++
  (if q.checkTitle ≠ "" then [("check-title", q.checkTitle)] else []) ++
  (if q.checkID ≠ "" then [("check-id", q.checkID)] else []) ++
  (if q.frameworkID ≠ "" then [("framework-id", q.frameworkID)] else []) ++
  (if q.frameworkTitle ≠ "" then [("framework-title", q.frameworkTitle)] else []) ++
  (if q.cloudAccountTags.length > 0 then
     [("cloud-account-tags", joinComma q.cloudAccountTags)] else []) ++
  (if q.includeCloudAccountTags then [("include-cloud-account-tags", "true")] else [])

/-- The query handling of ListConfigurationFindings: the goroutine replaces a
nil query by the zero-value query before the page loop; the parameters of a
page request with the given token. -/
def ListConfigurationFindingsParams (q : Option ConfigurationFindingsQuery)
    (pageToken : String) : List (String × String) :=
  buildConfigurationFindingsQueryParams (match q with | none => {} | some q => q) pageToken

/-- ApiEndpointsQuery of sdk/types.go with Go zero-value defaults (nspace
stands for the Go field Namespace, a Lean keyword). -/
structure ApiEndpointsQuery where
  perPage : Int := 0
  pageToken : String := ""
  method : String := ""
  authenticationState : String := ""
  hasInternetIngress : Option Bool := none
  hasVulnerability : Option Bool := none
  hasSensitiveData : Option Bool := none
  cloudAccountID : String := ""
  cloudProvider : String := ""
  resourceType : String := ""
  cloudOrganizationID : String := ""
  cloudOrganizationUnitID : String := ""
  domain : String := ""
  clusterID : String := ""
  nspace : String := ""
deriving Repr, DecidableEq

/-- Prints a Go bool as %t. -/
def goBool (b : Bool) : String := if b then "true" else "false"

/-- buildApiEndpointsQueryParams, in program order: the loop page token wins
over the query's own PageToken field. -/
def buildApiEndpointsQueryParams (q : ApiEndpointsQuery) (pageToken : String) :
    List (String × String) :=
  (if pageToken ≠ "" then [("page-token", pageToken)]
   else if q.pageToken ≠ "" then [("page-token", q.pageToken)] else []) ++
  (if q.perPage > 0 then [("per-page", toString q.perPage)] else []) ++
  (if q.method ≠ "" then [("method", q.method)] else []) ++
  (if q.authenticationState ≠ "" then [("authentication-state", q.authenticationState)] else []) ++
  (match q.hasInternetIngress with
   | some b => [("has-internet-ingress", goBool b)]
   | none => []) ++
  (match q.hasVulnerability with
   | some b => [("has-vulnerability", goBool b)]
   | none => []) ++
  (match q.hasSensitiveData with
   | some b => [("has-sensitive-data", goBool b)]
   | none => []) ++
  (if q.cloudAccountID ≠ "" then [("cloud-account-id", q.cloudAccountID)] else []) ++
  (if q.cloudProvider ≠ "" then [("cloud-provider", q.cloudProvider)] else []) ++
  (if q.resourceType ≠ "" then [("resource-type", q.resourceType)] else []) ++
  (if q.cloudOrganizationID ≠ "" then
     [("cloud-organization-id", q.cloudOrganizationID)] else []) ++
  (if q.cloudOrganizationUnitID ≠ "" then
     [("cloud-organization-unit-id", q.cloudOrganizationUnitID)] else []) ++
  (if q.domain ≠ "" then [("domain", q.domain)] else []) ++
  (if q.clusterID ≠ "" then [("cluster-id", q.clusterID)] else []) ++
  (if q.nspace ≠ "" then [("namespace", q.nspace)] else [])

/-- The query handling of ListApiEndpoints: a nil query is replaced by the
zero-value query, then a zero PerPage is replaced by the configured page
size. -/
def listApiEndpointsEffectiveQuery (cfgPageSize : Int) (q : Option ApiEndpointsQuery) :
    ApiEndpointsQuery :=
  match q with
  | none => { perPage := cfgPageSize }
  | some q => if q.perPage = 0 then { q with perPage := cfgPageSize } else q

/-- The page-request parameters of ListApiEndpoints after the nil and
per-page defaulting. -/
def ListApiEndpointsParams (cfgPageSize : Int) (q : Option ApiEndpointsQuery)
    (pageToken : String) : List (String × String) :=
  buildApiEndpointsQueryParams (listApiEndpointsEffectiveQuery cfgPageSize q) pageToken

/-- SbomPackagesQuery of the SBOM resource file with Go zero-value defaults. -/
structure SbomPackagesQuery where
  cloudAccountID : String := ""
  framework : String := ""
  imageName : String := ""
  packageName : String := ""
  packageManager : String := ""
  packageLicense : String := ""
deriving Repr, DecidableEq

/-- buildSbomPackagesQueryParams, in program order. -/
def buildSbomPackagesQueryParams (q : SbomPackagesQuery) : List (String × String) :=
  (if q.cloudAccountID ≠ "" then [("cloud-account-id", q.cloudAccountID)] else []) ++
  (if q.framework ≠ "" then [("framework", q.framework)] else []) ++
  (if q.imageName ≠ "" then [("image-name", q.imageName)] else []) ++
  (if q.packageName ≠ "" then [("package-name", q.packageName)] else []) ++
  (if q.packageManager ≠ "" then [("package-manager", q.packageManager)] else []) ++
  (if q.packageLicense ≠ "" then [("package-license", q.packageLicense)] else [])

/-- The query handling of ListSbomPackages: a nil query is replaced by the
zero-value query before the parameters are built. -/
def ListSbomPackagesParams (q : Option SbomPackagesQuery) : List (String × String) :=
  buildSbomPackagesQueryParams (match q with | none => {} | some q => q)

/-- C10: every list operation taking a query pointer (ListThreatDetections,
ListConfigurationFindings, ListApiEndpoints, ListSbomPackages) replaces a nil
query by a pointer to the zero-value query before any field is read — the
functions are total on nil (no dereference of a nil pointer) and behave
identically to being called with the zero-value query, for every page token
and configured page size. -/
theorem nil_query_equals_zero_query (cfgPageSize : Int) (pageToken : String) :
    ListThreatDetectionsParams none = ListThreatDetectionsParams (some {}) ∧
    ListConfigurationFindingsParams none pageToken
      = ListConfigurationFindingsParams (some {}) pageToken ∧
    listApiEndpointsEffectiveQuery cfgPageSize none
      = listApiEndpointsEffectiveQuery cfgPageSize (some {}) ∧
    ListApiEndpointsParams cfgPageSize none pageToken
      = ListApiEndpointsParams cfgPageSize (some {}) pageToken ∧
    ListSbomPackagesParams none = ListSbomPackagesParams (some {}) := by
  refine ⟨rfl, rfl, ?_, ?_, rfl⟩
  · simp [listApiEndpointsEffectiveQuery]
  · simp [ListApiEndpointsParams, listApiEndpointsEffectiveQuery]
